import Mathlib

/-!
Verification of the timestamp locator/rewriter in `script.js`.

The development shallowly embeds the program:

* the regular expression `/(\d{4}-\d{2}-\d{2}[:.T\d]*Z)/` from
  `localizeIsoStrings` (src/script.js:59) as an executable matcher
  (`matchLen`, `findMatch`, `testCore`, `splitSegsL`), parameterised by the
  character class so that the variant class `[-:.T\d]` appearing in
  `src/unnamed/part_000` is the same code at a different class;
* DOM nodes as `DNode`, `wrapIsoString` (src/script.js:96-103), the
  per-text-node split/map/filter pipeline of `nodeWalker`
  (src/script.js:74-84) as `processText`/`processTextWith`, and the
  live-child-list traversal loop of `nodeWalker` (src/script.js:69-86) as
  `walkLoop`/`nodeWalker` (fuel-indexed);
* the renderer `localIso8601String` (src/script.js:23-50), whose host
  dependencies (`new Date(...)` parsing and `Intl.DateTimeFormat`
  formatting with `timeZoneName: "longOffset"`) are modelled from their
  ECMA-262 / CLDR specified behaviour, with the reader's zone supplied as
  an explicit offset in minutes;
* the `RegExp` object state relevant to `test` (the `lastIndex` scanning
  position of ECMA-262 `RegExpBuiltinExec`) as `RegexObj`/`regexTest`.
-/

/-! ## The timestamp pattern of src/script.js:59 -/

/-- The character class `[:.T\d]` of the run in the pattern of
`src/script.js` line 59. -/
def classChar (c : Char) : Bool :=
  c == ':' || c == '.' || c == 'T' || c.isDigit

/-- The character class `[-:.T\d]` of the run in the pattern variant of
`src/unnamed/part_000` line 59. -/
def classCharU (c : Char) : Bool :=
  c == '-' || classChar c

/-- `\d{4}-\d{2}-\d{2}`: the fixed ten-character header of the pattern. -/
def header10 (l : List Char) : Bool :=
  match l with
  | [y1, y2, y3, y4, h1, m1, m2, h2, d1, d2] =>
    y1.isDigit && y2.isDigit && y3.isDigit && y4.isDigit && h1 == '-' &&
    m1.isDigit && m2.isDigit && h2 == '-' && d1.isDigit && d2.isDigit
  | _ => false

/-- Length of the match of `\d{4}-\d{2}-\d{2}[cls]*Z` anchored at the head
of `l`, if any.  The greedy run `[cls]*` must be followed by a literal
`'Z'`; since `'Z'` is not in the class, the only viable run is the maximal
one, so no backtracking search is needed. -/
def matchLen (cls : Char → Bool) (l : List Char) : Option Nat :=
  if header10 (l.take 10) then
    if (l.drop 10).get? ((l.drop 10).takeWhile cls).length == some 'Z' then
      some (11 + ((l.drop 10).takeWhile cls).length)
    else none
  else none

/-- Leftmost match: start index and length, as ECMA-262 regexp search finds
it (try each start position left to right). -/
def findMatch (cls : Char → Bool) : List Char → Option (Nat × Nat)
  | [] => none
  | c :: cs =>
    match matchLen cls (c :: cs) with
    | some n => some (0, n)
    | none => (findMatch cls cs).map (fun p => (p.1 + 1, p.2))

/-- `RegExp.prototype.test` search: does any position start a match? -/
def testCore (cls : Char → Bool) : List Char → Bool
  | [] => false
  | c :: cs => (matchLen cls (c :: cs)).isSome || testCore cls cs

/-! ## `String.prototype.split` on the capturing pattern -/

/-- One scanning step per available unit of fuel; `l.length` units always
suffice because every match consumes at least one character. -/
def splitGo (cls : Char → Bool) : Nat → List Char → List (List Char)
  | 0, l => [l]
  | fuel + 1, l =>
    match findMatch cls l with
    | none => [l]
    | some (i, n) =>
        l.take i :: (l.drop i).take n :: splitGo cls fuel (l.drop (i + n))

/-- `segments.split(re)` with the single capture group: alternating
literal pieces and captured matches, scanning for the leftmost match and
recursing on the remainder (ECMA-262 `RegExp.prototype[Symbol.split]`,
which always searches the whole string regardless of the `g` flag). -/
def splitSegsL (cls : Char → Bool) (l : List Char) : List (List Char) :=
  splitGo cls l.length l

/-! ## String-level wrappers (the program applies the pattern to
`child.textContent`, a string) -/

/-- `re.test(s)` for the pattern of src/script.js line 59. -/
def reTest (s : String) : Bool := testCore classChar s.data

/-- `re.test(s)` for the pattern variant of src/unnamed/part_000. -/
def reTestU (s : String) : Bool := testCore classCharU s.data

/-- Does the whole string match the pattern of src/script.js line 59? -/
def matchWhole (s : String) : Bool :=
  matchLen classChar s.data == some s.data.length

/-- `child.textContent.split(re)` from src/script.js line 75. -/
def splitSegs (s : String) : List String :=
  (splitSegsL classChar s.data).map (fun l => String.mk l)

/-- Concatenation of a list of segments (`[...].join("")`). -/
def segsJoin : List String → String
  | [] => ""
  | s :: r => s ++ segsJoin r

/-! ## DOM model -/

/-- A DOM node as the program distinguishes them via `nodeType`:
`ELEMENT_NODE` (with class list, `title` attribute and children),
`TEXT_NODE` (with `textContent` string), and any other node kind
(comments etc.), which the loop skips. -/
inductive DNode where
  | element (classes : List String) (title : String) (children : List DNode)
  | text (s : String)
  | other

mutual

/-- DOM `textContent`: a text node's string, the concatenation of the
descendants' text for an element, empty otherwise. -/
def textContent : DNode → String
  | .text s => s
  | .other => ""
  | .element _ _ cs => textContentL cs

def textContentL : List DNode → String
  | [] => ""
  | c :: cs => textContent c ++ textContentL cs

end

/-- Exceptions the modelled program can raise: `TypeError` (method call
on null/undefined), `RangeError` (`Intl.DateTimeFormat.formatToParts` on
an invalid `Date`), and exhaustion of the evaluation fuel of the embedded
traversal (a model artefact, never hit in the runs below). -/
inductive JsErr where
  | typeError
  | rangeError
  | fuel
deriving DecidableEq, Repr

/-! ## The host date/formatting capabilities used by the renderer

`localIso8601String` (src/script.js:23-50) calls `new Date(dateTime)` and
`Intl.DateTimeFormat("en-US", {..., timeZoneName: "longOffset"})
.formatToParts`.  These are host capabilities; they are modelled here from
their specified behaviour (ECMA-262 Date Time String Format for parsing;
CLDR localized GMT format for `longOffset`), with the reader's time zone
passed explicitly as an offset in minutes east of UTC.  Strings outside
the ECMA-262 date-time grammar (or date-times without a zone designator,
whose interpretation is the reader's local zone) are modelled as
unparseable, yielding an invalid `Date`; `formatToParts` on an invalid
`Date` throws a `RangeError`. -/

def digitVal (c : Char) : Nat := c.toNat - 48

def isLeap (y : Int) : Bool :=
  y % 4 == 0 && (y % 100 != 0 || y % 400 == 0)

def daysInMonth (y : Int) (m : Nat) : Nat :=
  [31, if isLeap y then 29 else 28, 31, 30, 31, 30, 31, 31, 30, 31, 30,
    31].getD (m - 1) 0

/-- Days from the epoch 1970-01-01 of a civil date (Hinnant's algorithm). -/
def daysFromCivil (y : Int) (m d : Nat) : Int :=
  let y2 : Int := if m ≤ 2 then y - 1 else y
  let era := y2.fdiv 400
  let yoe := y2 - 400 * era
  let mp : Int := (Int.ofNat m + 9) % 12
  let doy := (153 * mp + 2).fdiv 5 + Int.ofNat d - 1
  let doe := 365 * yoe + yoe.fdiv 4 - yoe.fdiv 100 + doy
  era * 146097 + doe - 719468

/-- Civil date (year, month, day) of an epoch day count (Hinnant's
algorithm). -/
def civilFromDays (z : Int) : Int × Nat × Nat :=
  let z2 := z + 719468
  let era := z2.fdiv 146097
  let doe := z2 - 146097 * era
  let yoe := (doe - doe.fdiv 1460 + doe.fdiv 36524 - doe.fdiv 146096).fdiv 365
  let y := yoe + 400 * era
  let doy := doe - (365 * yoe + yoe.fdiv 4 - yoe.fdiv 100)
  let mp := (5 * doy + 2).fdiv 153
  let d := doy - (153 * mp + 2).fdiv 5 + 1
  let m := if mp < 10 then mp + 3 else mp - 9
  (if m ≤ 2 then y + 1 else y, m.toNat, d.toNat)

def parse2 (a b : Char) : Option Nat :=
  if a.isDigit ∧ b.isDigit then some (10 * digitVal a + digitVal b) else none

/-- Zone designator of the ECMA-262 Date Time String Format: `Z` or
`±HH:mm`; result in minutes east of UTC. -/
def parseZone : List Char → Option Int
  | ['Z'] => some 0
  | '+' :: h1 :: h2 :: ':' :: m1 :: m2 :: [] => do
    let h ← parse2 h1 h2
    let m ← parse2 m1 m2
    if h ≤ 23 ∧ m ≤ 59 then some (Int.ofNat (60 * h + m)) else none
  | '-' :: h1 :: h2 :: ':' :: m1 :: m2 :: [] => do
    let h ← parse2 h1 h2
    let m ← parse2 m1 m2
    if h ≤ 23 ∧ m ≤ 59 then some (-Int.ofNat (60 * h + m)) else none
  | _ => none

def mkTime (h m s ms : Nat) (off : Int) : Option (Nat × Int) :=
  if (h ≤ 23 ∨ (h = 24 ∧ m = 0 ∧ s = 0 ∧ ms = 0)) ∧ m ≤ 59 ∧ s ≤ 59 then
    some (1000 * (3600 * h + 60 * m + s) + ms, off)
  else none

/-- `THH:mm[:ss[.sss]]` followed by a zone designator; result is
(milliseconds into the day, zone offset in minutes). -/
def parseTime : List Char → Option (Nat × Int)
  | h1 :: h2 :: ':' :: m1 :: m2 :: rest => do
    let h ← parse2 h1 h2
    let m ← parse2 m1 m2
    match rest with
    | ':' :: s1 :: s2 :: rest2 => do
      let s ← parse2 s1 s2
      match rest2 with
      | '.' :: f1 :: f2 :: f3 :: rest3 =>
        if f1.isDigit ∧ f2.isDigit ∧ f3.isDigit then do
          let off ← parseZone rest3
          mkTime h m s (100 * digitVal f1 + 10 * digitVal f2 + digitVal f3)
            off
        else none
      | _ => do
        let off ← parseZone rest2
        mkTime h m s 0 off
    | _ => do
      let off ← parseZone rest
      mkTime h m 0 0 off
  | _ => none

/-- `new Date(string)`: epoch milliseconds, or `none` for an invalid
`Date` (ECMA-262 Date Time String Format `YYYY-MM-DD[THH:mm[:ss[.sss]]]`
with a zone designator; a date-only form denotes UTC midnight; a
nonexistent calendar day makes `MakeDay` return NaN). -/
def jsDateParse (str : String) : Option Int :=
  match str.data with
  | y1 :: y2 :: y3 :: y4 :: '-' :: mo1 :: mo2 :: '-' :: d1 :: d2 :: rest =>
    if y1.isDigit ∧ y2.isDigit ∧ y3.isDigit ∧ y4.isDigit then do
      let y : Int := Int.ofNat (1000 * digitVal y1 + 100 * digitVal y2 +
        10 * digitVal y3 + digitVal y4)
      let mo ← parse2 mo1 mo2
      let d ← parse2 d1 d2
      if 1 ≤ mo ∧ mo ≤ 12 ∧ 1 ≤ d ∧ d ≤ daysInMonth y mo then
        match rest with
        | [] => some (86400000 * daysFromCivil y mo d)
        | 'T' :: t => do
          let p ← parseTime t
          some (86400000 * daysFromCivil y mo d + Int.ofNat p.1 -
            60000 * p.2)
        | _ => none
      else none
    else none
  | _ => none

/-! ## The renderer `localIso8601String` (src/script.js:23-50) -/

def pad2 (n : Nat) : String := if n < 10 then "0" ++ toString n else toString n

/-- The `en-US` `hour: "2-digit"` part value: `en-US` resolves to the
12-hour cycle, so the hour part is 1..12 (the day-period part exists but is
not consulted by the join in src/script.js:36-49). -/
def hour12 (h : Nat) : Nat := if h % 12 = 0 then 12 else h % 12

/-- The `timeZoneName: "longOffset"` part value (CLDR localized GMT
format): `"GMT"` at offset zero, otherwise `GMT±HH:mm`. -/
def gmtLongOffset (off : Int) : String :=
  if off = 0 then "GMT"
  else
    (if off < 0 then "GMT-" else "GMT+") ++ pad2 (off.natAbs / 60) ++ ":" ++
      pad2 (off.natAbs % 60)

/-- The characters kept by `.replace(/[^-+:\d]+/, "")` in
src/script.js:48. -/
def zoneKeep (c : Char) : Bool :=
  c == '-' || c == '+' || c == ':' || c.isDigit

/-- `.replace(/[^-+:\d]+/, "")` (no `g` flag): delete the first maximal
run of characters outside `[-+:\d]`, keep everything after it. -/
def stripFirstRun : List Char → List Char
  | [] => []
  | c :: cs =>
    if zoneKeep c then c :: stripFirstRun cs
    else cs.dropWhile (fun d => !zoneKeep d)

/-- The stripped `timeZoneName` component appended by the join in
src/script.js:48. -/
def zonePart (off : Int) : String :=
  String.mk (stripFirstRun (gmtLongOffset off).data)

/-- The joined part values of src/script.js:36-49 for a valid instant
`t` (epoch ms) formatted at reader offset `off` (minutes east of UTC). -/
def formatLocal (t off : Int) : String :=
  let lt := t + 60000 * off
  let days := lt.fdiv 86400000
  let tod := (lt - 86400000 * days).toNat
  let secs := tod / 1000
  let c := civilFromDays days
  toString c.1 ++ "-" ++ pad2 c.2.1 ++ "-" ++ pad2 c.2.2 ++ "T" ++
    pad2 (hour12 (secs / 3600)) ++ ":" ++ pad2 (secs % 3600 / 60) ++ ":" ++
    pad2 (secs % 60) ++ zonePart off

/-- `localIso8601String` (src/script.js:23-50): parse `dateTime` with
`new Date`, then format the parts; `formatToParts` throws a `RangeError`
on an invalid `Date`. -/
def localIso8601String (off : Int) (dateTime : String) : Except JsErr String :=
  match jsDateParse dateTime with
  | none => .error .rangeError
  | some t => .ok (formatLocal t off)

/-! ## `wrapIsoString` and the per-text-node pipeline (src/script.js:74-84,
96-103) -/

/-- `wrapIsoString(isoString, transformer)` (src/script.js:96-103): a
`span` with classes `date` and `localize-iso8601-string`, `title` set to
the original matched substring, and `textContent` set to
`transformer(isoString)` (assigning `textContent` creates one text child,
or none for the empty string). -/
def wrapIsoString (isoString : String) (transformer : String → String) :
    DNode :=
  DNode.element ["date", "localize-iso8601-string"] isoString
    (if transformer isoString = "" then []
     else [DNode.text (transformer isoString)])

/-- The `map` lambda of src/script.js:76-80 with the renderer
`localIso8601String`, which can throw. -/
def renderNode (off : Int) (segment : String) : Except JsErr DNode :=
  if reTest segment then
    (localIso8601String off segment).map
      (fun v => wrapIsoString segment (fun _ => v))
  else .ok (DNode.text segment)

/-- Sequential `map` over the segments; a thrown exception aborts it. -/
def mapSegs (off : Int) : List String → Except JsErr (List DNode)
  | [] => .ok []
  | seg :: rest => do
    let n ← renderNode off seg
    let ns ← mapSegs off rest
    pure (n :: ns)

/-- The whole pipeline of src/script.js:74-81 for one text node:
`textContent.split(re).map(...).filter((i) => i.textContent.length > 0)`. -/
def processText (off : Int) (s : String) : Except JsErr (List DNode) := do
  let ns ← mapSegs off (splitSegs s)
  pure (ns.filter (fun n => 0 < (textContent n).length))

/-- The same pipeline with an arbitrary total `transformer`, exactly as
`wrapIsoString` receives it (src/script.js:96). -/
def processTextWith (tr : String → String) (s : String) : List DNode :=
  ((splitSegs s).map (fun segment =>
      if reTest segment then wrapIsoString segment tr
      else DNode.text segment)).filter
    (fun n => 0 < (textContent n).length)

/-- The text a replacement node stands for: the string of a text node, and
for a `span` the original matched substring stored in its `title`
attribute. -/
def underlyingText : DNode → String
  | .text s => s
  | .element _ title _ => title
  | .other => ""

def underlyingConcat : List DNode → String
  | [] => ""
  | n :: ns => underlyingText n ++ underlyingConcat ns

def isMarker : DNode → Bool
  | .element _ _ _ => true
  | _ => false

/-! ## The traversal (src/script.js:69-86)

`for (const child of node.childNodes)` iterates a *live* `NodeList` by
index: the iterator yields `childNodes[idx]` for `idx = 0, 1, ...`
against the current list, and `child.replaceWith(df)` splices the
replacement nodes in place of `child` before the index advances. -/

def walkLoop (off : Int) : Nat → Nat → List DNode → Except JsErr (List DNode)
  | 0, _, _ => .error .fuel
  | fuel + 1, idx, cs =>
    if idx < cs.length then
      match cs.getD idx DNode.other with
      | DNode.element c t g => do
        let g2 ← if g.isEmpty then pure g else walkLoop off fuel 0 g
        walkLoop off fuel (idx + 1) (cs.set idx (DNode.element c t g2))
      | DNode.text s => do
        let ns ← processText off s
        walkLoop off fuel (idx + 1) (cs.take idx ++ ns ++ cs.drop (idx + 1))
      | DNode.other => walkLoop off fuel (idx + 1) cs
    else .ok cs

/-- `nodeWalker(node, re)` (src/script.js:69-86): return immediately if
the node has no child nodes, else run the child loop. -/
def nodeWalker (off : Int) (fuel : Nat) (n : DNode) : Except JsErr DNode :=
  match n with
  | DNode.element c t cs =>
    if cs.isEmpty then .ok (DNode.element c t cs)
    else (walkLoop off fuel 0 cs).map (fun cs2 => DNode.element c t cs2)
  | x => .ok x

/-- `localizeIsoStrings` (src/script.js:58-61): build the pattern once and
call `nodeWalker(document.body, iso8601)`.  A `none` body models a
null/undefined root, on which `node.hasChildNodes()` throws a
`TypeError`. -/
def localizeIsoStrings (off : Int) (fuel : Nat) (body : Option DNode) :
    Except JsErr DNode :=
  match body with
  | none => .error .typeError
  | some n => nodeWalker off fuel n

/-! ## `RegExp` object state (ECMA-262 `RegExpBuiltinExec`) -/

/-- The mutable state of a `RegExp` object that `test` can read or write:
the `global` flag and `lastIndex`. -/
structure RegexObj where
  global : Bool
  lastIndex : Nat
deriving DecidableEq, Repr

/-- `new RegExp(/(\d{4}-\d{2}-\d{2}[:.T\d]*Z)/)` (src/script.js:59): no
flags, so `global` is false and `lastIndex` starts at 0. -/
def iso8601 : RegexObj := ⟨false, 0⟩

/-- End position of the first match at or after `start`. -/
def execEndFrom (l : List Char) (start : Nat) : Option Nat :=
  (findMatch classChar (l.drop start)).map (fun p => start + p.1 + p.2)

/-- `re.test(s)` per ECMA-262: a non-global (non-sticky) regexp searches
from position 0 and leaves `lastIndex` untouched; a global regexp starts
at `lastIndex`, stores the match end on success and resets `lastIndex` to
0 on failure. -/
def regexTest (r : RegexObj) (s : String) : Bool × RegexObj :=
  if r.global then
    if s.data.length < r.lastIndex then (false, { r with lastIndex := 0 })
    else
      match execEndFrom s.data r.lastIndex with
      | some e => (true, { r with lastIndex := e })
      | none => (false, { r with lastIndex := 0 })
  else ((findMatch classChar s.data).isSome, r)

/-- A sequence of preceding `test` calls, threading the object state. -/
def runTests (r : RegexObj) (prior : List String) : RegexObj :=
  prior.foldl (fun r' t => (regexTest r' t).snd) r

/-- The marker's auxiliary attribute, when the node is a Marker Node. -/
def markerTitle : DNode → Option String
  | .element _ title _ => some title
  | _ => none

/-- Number of match segments the split produces. -/
def matchSegCount (s : String) : Nat :=
  ((splitSegs s).filter (fun t => reTest t)).length

/-! ## The shape recognised by the pattern (spec §4.1, with the run class
as src/script.js actually has it: no hyphen) -/

/-- Stated from the spec's words: four digits, `-`, two digits, `-`, two
digits, then a run of characters of the class, terminated by a literal
`Z` — the whole string being exactly that. -/
def IsoShape (s : String) : Prop :=
  ∃ (y1 y2 y3 y4 m1 m2 d1 d2 : Char) (run : List Char),
    s.data = y1 :: y2 :: y3 :: y4 :: '-' :: m1 :: m2 :: '-' :: d1 :: d2 ::
      (run ++ ['Z']) ∧
    (∀ c ∈ run, classChar c = true) ∧
    (y1.isDigit ∧ y2.isDigit ∧ y3.isDigit ∧ y4.isDigit ∧
     m1.isDigit ∧ m2.isDigit ∧ d1.isDigit ∧ d2.isDigit)

/-! ## Theorems -/

theorem matchLen_nil (cls : Char → Bool) : matchLen cls [] = none := rfl

theorem matchLen_pos {cls : Char → Bool} {l : List Char} {n : Nat}
    (h : matchLen cls l = some n) : 0 < n := by
  unfold matchLen at h
  split at h
  · split at h
    · have := Option.some_inj.mp h
      omega
    · exact absurd h (by simp)
  · exact absurd h (by simp)

theorem findMatch_ne_nil {cls : Char → Bool} {i n : Nat}
    (h : findMatch cls [] = some (i, n)) : False := by
  simp [findMatch] at h

theorem findMatch_matchLen {cls : Char → Bool} :
    ∀ {l : List Char} {i n : Nat}, findMatch cls l = some (i, n) →
      matchLen cls (l.drop i) = some n := by
  intro l
  induction l with
  | nil => intro i n h; exact absurd h (by simp [findMatch])
  | cons c cs ih =>
    intro i n h
    unfold findMatch at h
    cases hm : matchLen cls (c :: cs) with
    | some m =>
      rw [hm] at h
      simp only [Option.some_inj, Prod.mk.injEq] at h
      obtain ⟨hi, hn⟩ := h
      subst hi; subst hn
      simpa using hm
    | none =>
      rw [hm] at h
      cases hf : findMatch cls cs with
      | none => rw [hf] at h; exact absurd h (by simp)
      | some p =>
        obtain ⟨i', n'⟩ := p
        rw [hf] at h
        simp only [Option.map_some', Option.some_inj, Prod.mk.injEq] at h
        obtain ⟨hi, hn⟩ := h
        subst hi; subst hn
        simpa using ih hf

theorem findMatch_earlier_none {cls : Char → Bool} :
    ∀ {l : List Char} {i n : Nat}, findMatch cls l = some (i, n) →
      ∀ j, j < i → matchLen cls (l.drop j) = none := by
  intro l
  induction l with
  | nil => intro i n h; exact absurd h (by simp [findMatch])
  | cons c cs ih =>
    intro i n h j hj
    unfold findMatch at h
    cases hm : matchLen cls (c :: cs) with
    | some m =>
      rw [hm] at h
      simp only [Option.some_inj, Prod.mk.injEq] at h
      omega
    | none =>
      rw [hm] at h
      cases hf : findMatch cls cs with
      | none => rw [hf] at h; exact absurd h (by simp)
      | some p =>
        obtain ⟨i', n'⟩ := p
        rw [hf] at h
        simp only [Option.map_some', Option.some_inj, Prod.mk.injEq] at h
        obtain ⟨hi, hn⟩ := h
        subst hi; subst hn
        cases j with
        | zero => simpa using hm
        | succ j' =>
          have hj' : j' < i' := by omega
          simpa using ih hf j' hj'

theorem findMatch_none_all {cls : Char → Bool} :
    ∀ {l : List Char}, findMatch cls l = none →
      ∀ j, matchLen cls (l.drop j) = none := by
  intro l
  induction l with
  | nil => intro _ j; cases j <;> simp [matchLen_nil]
  | cons c cs ih =>
    intro h j
    unfold findMatch at h
    cases hm : matchLen cls (c :: cs) with
    | some m => rw [hm] at h; exact absurd h (by simp)
    | none =>
      rw [hm] at h
      cases j with
      | zero => simpa using hm
      | succ j' =>
        have hf : findMatch cls cs = none := by
          cases hf : findMatch cls cs with
          | none => rfl
          | some p => rw [hf] at h; exact absurd h (by simp)
        simpa using ih hf j'

theorem testCore_eq_true_iff (cls : Char → Bool) :
    ∀ l : List Char, testCore cls l = true ↔
      ∃ j, (matchLen cls (l.drop j)).isSome := by
  intro l
  induction l with
  | nil =>
    simp [testCore, matchLen_nil]
  | cons c cs ih =>
    constructor
    · intro h
      rcases Bool.or_eq_true_iff.mp h with h1 | h2
      · exact ⟨0, by simpa using h1⟩
      · obtain ⟨j, hj⟩ := ih.mp h2
        exact ⟨j + 1, by simpa using hj⟩
    · rintro ⟨j, hj⟩
      cases j with
      | zero =>
        exact Bool.or_eq_true_iff.mpr (Or.inl (by simpa using hj))
      | succ j' =>
        exact Bool.or_eq_true_iff.mpr (Or.inr (ih.mpr ⟨j', by simpa using hj⟩))

/-! ## Characterisation of a match -/

theorem header10_length {hd : List Char} (h : header10 hd = true) :
    hd.length = 10 := by
  unfold header10 at h
  split at h
  · simp_all
  · simp_all

theorem matchLen_iff {cls : Char → Bool} (hZ : cls 'Z' = false)
    {l : List Char} {n : Nat} :
    matchLen cls l = some n ↔
      ∃ hd run t, l = hd ++ run ++ 'Z' :: t ∧ header10 hd = true ∧
        (∀ c ∈ run, cls c = true) ∧ n = 11 + run.length := by
  constructor
  · intro h
    unfold matchLen at h
    split at h
    · split at h
      · rename_i hh hz
        have hn := Option.some_inj.mp h
        set run := (l.drop 10).takeWhile cls with hrun_def
        have hz' : (l.drop 10).get? run.length = some 'Z' := by simpa using hz
        have hsplit : run ++ (l.drop 10).dropWhile cls = l.drop 10 :=
          List.takeWhile_append_dropWhile cls (l.drop 10)
        have hdw : ((l.drop 10).dropWhile cls).get? 0 = some 'Z' := by
          rw [List.get?_eq_getElem?] at hz' ⊢
          have hx : (run ++ (l.drop 10).dropWhile cls)[run.length]? =
              ((l.drop 10).dropWhile cls)[run.length - run.length]? :=
            List.getElem?_append_right (Nat.le_refl run.length)
          rw [hsplit] at hx
          rw [hx] at hz'
          simpa using hz'
        obtain ⟨t, ht⟩ : ∃ t, (l.drop 10).dropWhile cls = 'Z' :: t := by
          cases hcase : (l.drop 10).dropWhile cls with
          | nil => rw [hcase] at hdw; simp at hdw
          | cons a t =>
            rw [hcase] at hdw
            simp at hdw
            exact ⟨t, by rw [hdw]⟩
        refine ⟨l.take 10, run, t, ?_, hh, ?_, ?_⟩
        · conv_lhs => rw [← List.take_append_drop 10 l, ← hsplit, ht]
          rw [List.append_assoc]
        · intro c hc
          rw [hrun_def] at hc
          exact List.mem_takeWhile_imp hc
        · omega
      · exact absurd h (by simp)
    · exact absurd h (by simp)
  · rintro ⟨hd, run, t, rfl, hh, hrun, rfl⟩
    have hlen := header10_length hh
    have htake : (hd ++ run ++ 'Z' :: t).take 10 = hd := by
      rw [List.append_assoc, ← hlen]
      exact List.take_left hd (run ++ 'Z' :: t)
    have hdrop : (hd ++ run ++ 'Z' :: t).drop 10 = run ++ 'Z' :: t := by
      rw [List.append_assoc, ← hlen]
      exact List.drop_left hd (run ++ 'Z' :: t)
    have htw : (run ++ 'Z' :: t).takeWhile cls = run := by
      rw [List.takeWhile_append_of_pos (by simpa using hrun)]
      simp [List.takeWhile_cons, hZ]
    have hget : (run ++ 'Z' :: t).get? run.length = some 'Z' := by
      rw [List.get?_eq_getElem?,
        List.getElem?_append_right (Nat.le_refl run.length)]
      simp
    unfold matchLen
    rw [htake, hh, hdrop, htw, hget]
    simp

theorem matchLen_take {cls : Char → Bool} (hZ : cls 'Z' = false)
    {l : List Char} {k n : Nat} (h : matchLen cls (l.take k) = some n) :
    matchLen cls l = some n := by
  rw [matchLen_iff hZ] at h ⊢
  obtain ⟨hd, run, t, heq, hh, hrun, hn⟩ := h
  refine ⟨hd, run, t ++ l.drop k, ?_, hh, hrun, hn⟩
  conv_lhs => rw [← List.take_append_drop k l]
  rw [heq]
  simp

theorem matchLen_self_take {cls : Char → Bool} (hZ : cls 'Z' = false)
    {l : List Char} {n : Nat} (h : matchLen cls l = some n) :
    matchLen cls (l.take n) = some n := by
  rw [matchLen_iff hZ] at h ⊢
  obtain ⟨hd, run, t, heq, hh, hrun, hn⟩ := h
  refine ⟨hd, run, [], ?_, hh, hrun, hn⟩
  subst heq; subst hn
  have hlen := header10_length hh
  have harith : 11 + run.length = ((hd ++ run).length) + 1 := by
    rw [List.length_append, hlen]
    omega
  rw [harith, List.take_append]
  simp

theorem splitGo_flatten (cls : Char → Bool) :
    ∀ (fuel : Nat) (l : List Char), (splitGo cls fuel l).flatten = l := by
  intro fuel
  induction fuel with
  | zero => intro l; simp [splitGo]
  | succ fuel ih =>
    intro l
    cases hm : findMatch cls l with
    | none => simp [splitGo, hm]
    | some p =>
      obtain ⟨i, n⟩ := p
      simp only [splitGo, hm, List.flatten_cons, ih]
      have hdd : (l.drop i).drop n = l.drop (i + n) := by
        rw [List.drop_drop, Nat.add_comm]
      rw [← hdd, List.take_append_drop n (l.drop i), List.take_append_drop]

theorem splitSegsL_flatten (cls : Char → Bool) (l : List Char) :
    (splitSegsL cls l).flatten = l :=
  splitGo_flatten cls l.length l

theorem testCore_eq_false {cls : Char → Bool} {l : List Char}
    (h : ∀ j, matchLen cls (l.drop j) = none) : testCore cls l = false := by
  cases htc : testCore cls l with
  | false => rfl
  | true =>
    obtain ⟨j, hj⟩ := (testCore_eq_true_iff cls l).mp htc
    rw [h j] at hj
    simp at hj

theorem testCore_take_false {cls : Char → Bool} (hZ : cls 'Z' = false)
    {l : List Char} {i : Nat}
    (h : ∀ j, j < i → matchLen cls (l.drop j) = none) :
    testCore cls (l.take i) = false := by
  apply testCore_eq_false
  intro j
  by_cases hj : j < i
  · rw [List.drop_take]
    cases hml : matchLen cls ((l.drop j).take (i - j)) with
    | none => rfl
    | some n => exact absurd (matchLen_take hZ hml) (by simp [h j hj])
  · have hnil : (l.take i).drop j = [] := by
      apply List.drop_eq_nil_of_le
      calc (l.take i).length ≤ i := by simp
        _ ≤ j := by omega
    rw [hnil, matchLen_nil]

theorem testCore_of_matchLen {cls : Char → Bool} {l : List Char} {n : Nat}
    (h : matchLen cls l = some n) : testCore cls l = true := by
  cases l with
  | nil => rw [matchLen_nil] at h; exact absurd h (by simp)
  | cons c cs => simp [testCore, h]

theorem splitGo_alternation (cls : Char → Bool) (hZ : cls 'Z' = false) :
    ∀ (fuel : Nat) (l : List Char), l.length ≤ fuel →
      ∀ i, i < (splitGo cls fuel l).length →
        testCore cls ((splitGo cls fuel l).getD i []) = decide (i % 2 = 1) := by
  intro fuel
  induction fuel with
  | zero =>
    intro l hle i hi
    have hnil : l = [] := List.length_eq_zero.mp (Nat.le_zero.mp hle)
    subst hnil
    have hi0 : i = 0 := by simpa [splitGo] using hi
    subst hi0
    simp [splitGo, testCore]
  | succ fuel ih =>
    intro l hle i hi
    cases hm : findMatch cls l with
    | none =>
      simp only [splitGo, hm] at hi ⊢
      have hi0 : i = 0 := by simpa using hi
      subst hi0
      simpa using testCore_eq_false (findMatch_none_all hm)
    | some p =>
      obtain ⟨i0, n⟩ := p
      simp only [splitGo, hm] at hi ⊢
      match i with
      | 0 =>
        simpa using testCore_take_false hZ (findMatch_earlier_none hm)
      | 1 =>
        have h1 := findMatch_matchLen hm
        simpa using testCore_of_matchLen (matchLen_self_take hZ h1)
      | (j + 2) =>
        have hn1 : 0 < n := matchLen_pos (findMatch_matchLen hm)
        have hle2 : (l.drop (i0 + n)).length ≤ fuel := by
          simp only [List.length_drop]
          omega
        have hj : j < (splitGo cls fuel (l.drop (i0 + n))).length := by
          simpa using hi
        have := ih (l.drop (i0 + n)) hle2 j hj
        have hmod : (j + 2) % 2 = j % 2 := by omega
        simpa [hmod] using this

theorem splitSegsL_alternation (cls : Char → Bool) (hZ : cls 'Z' = false)
    (l : List Char) :
    ∀ i, i < (splitSegsL cls l).length →
      testCore cls ((splitSegsL cls l).getD i []) = decide (i % 2 = 1) :=
  fun i hi =>
    splitGo_alternation cls hZ l.length l (Nat.le_refl l.length) i hi

theorem segsJoin_map_mk (L : List (List Char)) :
    segsJoin (L.map (fun l => String.mk l)) = String.mk L.flatten := by
  induction L with
  | nil => rfl
  | cons a L ih =>
    simp only [List.map_cons, segsJoin, ih, List.flatten_cons]
    rfl

theorem segsJoin_splitSegs (s : String) : segsJoin (splitSegs s) = s := by
  rw [splitSegs, segsJoin_map_mk, splitSegsL_flatten]

theorem getD_map_mk (L : List (List Char)) (i : Nat) :
    (L.map (fun l => String.mk l)).getD i "" = String.mk (L.getD i []) := by
  induction L generalizing i with
  | nil => cases i <;> rfl
  | cons a L ih => cases i with
    | zero => rfl
    | succ j => simp only [List.map_cons, List.getD_cons_succ, ih j]

theorem splitSegs_alternation (s : String) :
    ∀ i, i < (splitSegs s).length →
      reTest ((splitSegs s).getD i "") = decide (i % 2 = 1) := by
  intro i hi
  rw [splitSegs, getD_map_mk]
  have hlen : i < (splitSegsL classChar s.data).length := by
    simpa [splitSegs] using hi
  exact splitSegsL_alternation classChar (by decide) s.data i hlen

/-! ## Support lemmas for the pipeline -/

theorem String.length_zero_eq {s : String} (h : s.length = 0) : s = "" := by
  cases s with
  | mk data =>
    cases data with
    | nil => rfl
    | cons c cs => simp [String.length] at h

theorem textContent_wrapIsoString (s : String) (tr : String → String) :
    textContent (wrapIsoString s tr) = tr s := by
  by_cases h : tr s = "" <;>
    simp [wrapIsoString, h, textContent, textContentL]

theorem formatLocal_ne_empty (t off : Int) : formatLocal t off ≠ "" := by
  intro h
  have hlen := congrArg String.length h
  simp only [formatLocal, String.length_append] at hlen
  have h1 : ("-" : String).length = 1 := rfl
  have h0 : ("" : String).length = 0 := rfl
  omega

theorem localIso8601String_ok_ne_empty {off : Int} {s v : String}
    (h : localIso8601String off s = .ok v) : v ≠ "" := by
  unfold localIso8601String at h
  cases hp : jsDateParse s with
  | none => rw [hp] at h; exact absurd h (by simp)
  | some t =>
    rw [hp] at h
    simp only [Except.ok.injEq] at h
    rw [← h]
    exact formatLocal_ne_empty t off

theorem renderNode_ok {off : Int} {seg : String} {n : DNode}
    (h : renderNode off seg = .ok n) :
    underlyingText n = seg ∧ (textContent n = "" → underlyingText n = "") := by
  unfold renderNode at h
  split at h
  · cases hl : localIso8601String off seg with
    | error e => rw [hl] at h; exact absurd h (by simp [Except.map])
    | ok v =>
      rw [hl] at h
      simp only [Except.map, Except.ok.injEq] at h
      subst h
      constructor
      · rfl
      · intro hc
        rw [textContent_wrapIsoString] at hc
        exact absurd hc (localIso8601String_ok_ne_empty hl)
  · simp only [Except.ok.injEq] at h
    subst h
    exact ⟨rfl, fun hc => hc⟩

theorem mapSegs_ok {off : Int} :
    ∀ {segs : List String} {ns : List DNode}, mapSegs off segs = .ok ns →
      ns.map underlyingText = segs ∧
      ∀ n ∈ ns, textContent n = "" → underlyingText n = "" := by
  intro segs
  induction segs with
  | nil =>
    intro ns h
    simp only [mapSegs, Except.ok.injEq] at h
    subst h
    simp
  | cons seg rest ih =>
    intro ns h
    simp only [mapSegs] at h
    cases hr : renderNode off seg with
    | error e =>
      rw [hr] at h
      simp [Bind.bind, Except.bind] at h
    | ok n =>
      rw [hr] at h
      simp only [Bind.bind, Except.bind] at h
      cases hm : mapSegs off rest with
      | error e => rw [hm] at h; simp at h
      | ok ns' =>
        rw [hm] at h
        simp only [pure, Except.pure, Except.ok.injEq] at h
        subst h
        obtain ⟨hmap, hdrop⟩ := ih hm
        obtain ⟨hu, hc⟩ := renderNode_ok hr
        refine ⟨by simp [hmap, hu], ?_⟩
        intro m hm'
        rcases List.mem_cons.mp hm' with rfl | hm''
        · exact hc
        · exact hdrop m hm''

theorem underlyingConcat_filter :
    ∀ {ns : List DNode},
      (∀ n ∈ ns, textContent n = "" → underlyingText n = "") →
      underlyingConcat (ns.filter (fun n => 0 < (textContent n).length)) =
        underlyingConcat ns := by
  intro ns
  induction ns with
  | nil => intro _; rfl
  | cons n ns ih =>
    intro h
    have hrest := ih (fun m hm => h m (List.mem_cons_of_mem _ hm))
    by_cases hn : 0 < (textContent n).length
    · simp [List.filter_cons, hn, underlyingConcat, hrest]
    · have h0 : textContent n = "" := String.length_zero_eq (by omega)
      have h1 : underlyingText n = "" := h n (List.mem_cons_self ..) h0
      simp [List.filter_cons, hn, underlyingConcat, hrest, h1]

theorem underlyingConcat_eq_segsJoin :
    ∀ ns : List DNode, underlyingConcat ns = segsJoin (ns.map underlyingText)
  | [] => rfl
  | n :: ns => by
    simp only [underlyingConcat, List.map_cons, segsJoin,
      underlyingConcat_eq_segsJoin ns]

theorem processText_ok_concat {off : Int} {s : String} {ns : List DNode}
    (h : processText off s = .ok ns) : underlyingConcat ns = s := by
  unfold processText at h
  cases hm : mapSegs off (splitSegs s) with
  | error e =>
    rw [hm] at h
    simp [Bind.bind, Except.bind] at h
  | ok ms =>
    rw [hm] at h
    simp only [Bind.bind, Except.bind, pure, Except.pure,
      Except.ok.injEq] at h
    subst h
    obtain ⟨hmap, hdrop⟩ := mapSegs_ok hm
    rw [underlyingConcat_filter hdrop, underlyingConcat_eq_segsJoin, hmap,
      segsJoin_splitSegs]

theorem processText_ok_mem_pos {off : Int} {s : String} {ns : List DNode}
    (h : processText off s = .ok ns) :
    ∀ n ∈ ns, 0 < (textContent n).length := by
  unfold processText at h
  cases hm : mapSegs off (splitSegs s) with
  | error e =>
    rw [hm] at h
    simp [Bind.bind, Except.bind] at h
  | ok ms =>
    rw [hm] at h
    simp only [Bind.bind, Except.bind, pure, Except.pure,
      Except.ok.injEq] at h
    subst h
    intro n hn
    have := List.of_mem_filter hn
    exact of_decide_eq_true this

theorem pos_of_ne_empty {s : String} (h : s ≠ "") : 0 < s.length := by
  by_contra hc
  exact h (String.length_zero_eq (by omega))

theorem processTextWith_markers (tr : String → String)
    (htr : ∀ m, tr m ≠ "") (s : String) :
    (processTextWith tr s).filterMap markerTitle =
      (splitSegs s).filter (fun t => reTest t) := by
  unfold processTextWith
  induction splitSegs s with
  | nil => rfl
  | cons seg rest ih =>
    by_cases hre : reTest seg
    · have hpos : 0 < (textContent (wrapIsoString seg tr)).length := by
        rw [textContent_wrapIsoString]
        exact pos_of_ne_empty (htr seg)
      simp only [List.map_cons, if_pos hre, List.filter_cons]
      rw [if_pos (decide_eq_true hpos)]
      simp only [List.filterMap_cons,
        show markerTitle (wrapIsoString seg tr) = some seg from rfl, ih]
    · simp only [List.map_cons, if_neg hre, List.filter_cons]
      by_cases hkeep : 0 < (textContent (DNode.text seg)).length
      · rw [if_pos (decide_eq_true hkeep)]
        simp only [List.filterMap_cons,
          show markerTitle (DNode.text seg) = none from rfl, ih]
      · rw [if_neg (by simpa using hkeep)]
        exact ih

theorem header10_iff {hd : List Char} :
    header10 hd = true ↔
      ∃ y1 y2 y3 y4 m1 m2 d1 d2 : Char,
        hd = [y1, y2, y3, y4, '-', m1, m2, '-', d1, d2] ∧
        (y1.isDigit ∧ y2.isDigit ∧ y3.isDigit ∧ y4.isDigit ∧
         m1.isDigit ∧ m2.isDigit ∧ d1.isDigit ∧ d2.isDigit) := by
  constructor
  · intro h
    unfold header10 at h
    split at h
    · rename_i y1 y2 y3 y4 h1 m1 m2 h2 d1 d2
      simp only [Bool.and_eq_true, beq_iff_eq] at h
      obtain ⟨⟨⟨⟨⟨⟨⟨⟨⟨hy1, hy2⟩, hy3⟩, hy4⟩, hh1⟩, hm1⟩, hm2⟩, hh2⟩, hd1⟩,
        hd2⟩ := h
      subst hh1; subst hh2
      exact ⟨y1, y2, y3, y4, m1, m2, d1, d2, rfl,
        hy1, hy2, hy3, hy4, hm1, hm2, hd1, hd2⟩
    · simp at h
  · rintro ⟨y1, y2, y3, y4, m1, m2, d1, d2, rfl, hdig⟩
    unfold header10
    simp [hdig.1, hdig.2.1, hdig.2.2.1, hdig.2.2.2.1, hdig.2.2.2.2.1,
      hdig.2.2.2.2.2.1, hdig.2.2.2.2.2.2.1, hdig.2.2.2.2.2.2.2]

theorem matchWhole_iff_isoShape (s : String) :
    matchWhole s = true ↔ IsoShape s := by
  unfold matchWhole
  rw [beq_iff_eq]
  constructor
  · intro h
    obtain ⟨hd, run, t, heq, hh, hrun, hn⟩ :=
      (matchLen_iff (by decide)).mp h
    have hhd := header10_length hh
    have hlen : s.data.length = hd.length + run.length + (1 + t.length) := by
      rw [heq]
      simp [List.length_append]
      omega
    have ht0 : t = [] := by
      apply List.length_eq_zero.mp
      omega
    subst ht0
    obtain ⟨y1, y2, y3, y4, m1, m2, d1, d2, hdeq, hdig⟩ := header10_iff.mp hh
    refine ⟨y1, y2, y3, y4, m1, m2, d1, d2, run, ?_, hrun, hdig⟩
    rw [heq, hdeq]
    simp
  · rintro ⟨y1, y2, y3, y4, m1, m2, d1, d2, run, hdeq, hrun, hdig⟩
    apply (matchLen_iff (by decide)).mpr
    refine ⟨[y1, y2, y3, y4, '-', m1, m2, '-', d1, d2], run, [], ?_, ?_, hrun,
      ?_⟩
    · rw [hdeq]; simp
    · exact header10_iff.mpr ⟨y1, y2, y3, y4, m1, m2, d1, d2, rfl, hdig⟩
    · rw [hdeq]
      simp [List.length_append]
      omega

/-! ## Whole-string matches and the pipeline -/

theorem splitGo_nil (cls : Char → Bool) : ∀ f, splitGo cls f [] = [[]] := by
  intro f
  cases f <;> rfl

theorem splitSegsL_of_whole {l : List Char}
    (hm : matchLen classChar l = some l.length) :
    splitSegsL classChar l = [[], l, []] := by
  have hpos := matchLen_pos hm
  have hl : l ≠ [] := by
    rintro rfl
    rw [matchLen_nil] at hm
    exact absurd hm (by simp)
  have hf : findMatch classChar l = some (0, l.length) := by
    cases l with
    | nil => exact absurd rfl hl
    | cons c cs => simp [findMatch, hm]
  unfold splitSegsL
  obtain ⟨f, hfuel⟩ : ∃ f, l.length = f + 1 :=
    ⟨l.length - 1, by have := List.length_pos.mpr hl; omega⟩
  rw [hfuel]
  simp only [splitGo, hf]
  simp [splitGo_nil]

theorem reTest_of_matchWhole {s : String} (h : matchWhole s = true) :
    reTest s = true := by
  unfold matchWhole at h
  exact testCore_of_matchLen (beq_iff_eq.mp h)

theorem splitSegs_of_matchWhole {s : String} (h : matchWhole s = true) :
    splitSegs s = ["", s, ""] := by
  unfold matchWhole at h
  have := splitSegsL_of_whole (beq_iff_eq.mp h)
  unfold splitSegs
  rw [this]
  rfl

theorem processText_error_of_whole {off : Int} {s : String}
    (hw : matchWhole s = true) (h2 : jsDateParse s = none) :
    processText off s = .error JsErr.rangeError := by
  unfold processText
  rw [splitSegs_of_matchWhole hw]
  have hre : reTest s = true := reTest_of_matchWhole hw
  have hr0 : renderNode off "" = .ok (DNode.text "") := rfl
  have hrs : renderNode off s = .error JsErr.rangeError := by
    unfold renderNode localIso8601String
    rw [if_pos hre, h2]
    rfl
  simp [mapSegs, hr0, hrs, Bind.bind, Except.bind]

theorem regexTest_nonglobal {r : RegexObj} (h : r.global = false)
    (t : String) : (regexTest r t).snd = r := by
  unfold regexTest
  rw [h]
  simp

theorem runTests_id (prior : List String) :
    runTests iso8601 prior = iso8601 := by
  unfold runTests
  induction prior with
  | nil => rfl
  | cons t ts ih =>
    simp only [List.foldl_cons]
    rw [regexTest_nonglobal rfl t]
    exact ih

/-! ## Claims -/

/-- C1: for every text-bearing leaf the rewriter processes successfully,
concatenating, in order, the underlying text of all replacement nodes it
produces — each plain text node's string, and each Marker Node's original
matched substring stored in its `title` attribute — equals the leaf's
original string value exactly. -/
theorem claim_C1_content_preservation (off : Int) (s : String)
    (ns : List DNode) (h : processText off s = .ok ns) :
    underlyingConcat ns = s :=
  processText_ok_concat h

set_option maxHeartbeats 2000000 in
theorem claim_C1_witness :
    processText (-480) "x2024-02-08T20:03:14Z y" = .ok
      [DNode.text "x",
       DNode.element ["date", "localize-iso8601-string"]
         "2024-02-08T20:03:14Z" [DNode.text "2024-02-08T12:03:14-08:00"],
       DNode.text " y"] ∧
    underlyingConcat
      [DNode.text "x",
       DNode.element ["date", "localize-iso8601-string"]
         "2024-02-08T20:03:14Z" [DNode.text "2024-02-08T12:03:14-08:00"],
       DNode.text " y"] = "x2024-02-08T20:03:14Z y" := by
  have h : processText (-480) "x2024-02-08T20:03:14Z y" = .ok
      [DNode.text "x",
       DNode.element ["date", "localize-iso8601-string"]
         "2024-02-08T20:03:14Z" [DNode.text "2024-02-08T12:03:14-08:00"],
       DNode.text " y"] := rfl
  exact ⟨h, claim_C1_content_preservation (-480) "x2024-02-08T20:03:14Z y" _ h⟩

/-- C2: the claim says every node of the original tree is visited exactly
once, children are enumerated from the pre-replacement child sequence and
no replacement node is re-scanned.  The code iterates the *live*
`childNodes` list while `replaceWith` splices, so when a text child is
replaced by zero nodes the following original sibling shifts into the
current index and is skipped: on a parent with children
`[Text "", Text "2024-02-08T20:03:14Z"]` the second child — a timestamp
the program exists to rewrite — is never visited and survives verbatim. -/
theorem claim_C2_live_list_skips_sibling :
    reTest "2024-02-08T20:03:14Z" = true ∧
    nodeWalker 0 100
        (DNode.element [] ""
          [DNode.text "", DNode.text "2024-02-08T20:03:14Z"]) =
      .ok (DNode.element [] "" [DNode.text "2024-02-08T20:03:14Z"]) :=
  ⟨by decide, rfl⟩

/-- C3: the split of any input with two or more pattern occurrences is a
correctly alternating sequence — the segments rejoin to the original
string, the segment at every odd index (and only there) is a pattern
match, and the pipeline produces one Marker Node per match segment, in
order, whenever the renderer output is never empty. -/
theorem claim_C3_global_matching (s : String) (i : Nat)
    (tr : String → String) (hcount : 2 ≤ matchSegCount s)
    (hi : i < (splitSegs s).length) (htr : ∀ m, tr m ≠ "") :
    segsJoin (splitSegs s) = s ∧
    reTest ((splitSegs s).getD i "") = decide (i % 2 = 1) ∧
    (processTextWith tr s).filterMap markerTitle =
      (splitSegs s).filter (fun t => reTest t) :=
  ⟨segsJoin_splitSegs s, splitSegs_alternation s i hi,
    processTextWith_markers tr htr s⟩

theorem claim_C3_witness :
    2 ≤ matchSegCount "a2024-02-08T20:03:14Zb2024-02-09T04:16:56Zc" ∧
    3 < (splitSegs "a2024-02-08T20:03:14Zb2024-02-09T04:16:56Zc").length ∧
    (segsJoin (splitSegs "a2024-02-08T20:03:14Zb2024-02-09T04:16:56Zc") =
        "a2024-02-08T20:03:14Zb2024-02-09T04:16:56Zc" ∧
      reTest ((splitSegs
          "a2024-02-08T20:03:14Zb2024-02-09T04:16:56Zc").getD 3 "") =
        decide (3 % 2 = 1) ∧
      (processTextWith (fun _ => "X")
          "a2024-02-08T20:03:14Zb2024-02-09T04:16:56Zc").filterMap
          markerTitle =
        (splitSegs "a2024-02-08T20:03:14Zb2024-02-09T04:16:56Zc").filter
          (fun t => reTest t)) :=
  ⟨by decide, by decide,
    claim_C3_global_matching "a2024-02-08T20:03:14Zb2024-02-09T04:16:56Zc"
      3 (fun _ => "X") (by decide) (by decide)
      (fun _ => show ("X" : String) ≠ "" by decide)⟩

/-- C4 counterexample: the claim says a null/undefined root makes the
rewrite a no-op with no exception; but `nodeWalker` starts with
`node.hasChildNodes()`, which on a null root throws a `TypeError`. -/
theorem claim_C4_counterexample :
    localizeIsoStrings 0 100 none = .error JsErr.typeError := rfl

/-- C4 amended: if the root node exists but has no child nodes the rewrite
is a no-op; an absent (null/undefined) root instead raises a `TypeError`
(`null.hasChildNodes()`), so the operation is not a defensive no-op. -/
theorem claim_C4_amended :
    (∀ (off : Int) (fuel : Nat) (c : List String) (t : String),
      nodeWalker off fuel (DNode.element c t []) =
        .ok (DNode.element c t [])) ∧
    (∀ (off : Int) (fuel : Nat),
      localizeIsoStrings off fuel none = .error JsErr.typeError) :=
  ⟨fun _ _ _ _ => rfl, fun _ _ => rfl⟩

/-- C5 counterexample: the claim says a syntactically matching but invalid
instant makes the renderer return a fallback string and traversal
continues; but `2024-02-30T10:00:00Z` (a nonexistent calendar day) makes
`new Date` invalid, `formatToParts` throws a `RangeError`, and the
exception aborts the walk — the second, perfectly valid timestamp in the
same text node is never processed. -/
theorem claim_C5_counterexample :
    reTest "2024-02-30T10:00:00Z" = true ∧
    localIso8601String 0 "2024-02-30T10:00:00Z" = .error JsErr.rangeError ∧
    nodeWalker 0 100
        (DNode.element [] ""
          [DNode.text "2024-02-30T10:00:00Z and 2024-02-08T20:03:14Z"]) =
      .error JsErr.rangeError :=
  ⟨by decide, rfl, rfl⟩

/-- C5 amended: for a string that the pattern matches in full but that
does not denote a valid instant, the renderer raises a `RangeError`
(no fallback string exists in the code), and the per-text-node pipeline
propagates it, aborting the traversal. -/
theorem claim_C5_amended (off : Int) (s : String)
    (h1 : matchWhole s = true) (h2 : jsDateParse s = none) :
    localIso8601String off s = .error JsErr.rangeError ∧
    processText off s = .error JsErr.rangeError := by
  constructor
  · unfold localIso8601String
    rw [h2]
  · exact processText_error_of_whole h1 h2

theorem claim_C5_witness :
    matchWhole "2024-02-30T10:00:00Z" = true ∧
    jsDateParse "2024-02-30T10:00:00Z" = none ∧
    (localIso8601String 0 "2024-02-30T10:00:00Z" = .error JsErr.rangeError ∧
      processText 0 "2024-02-30T10:00:00Z" = .error JsErr.rangeError) :=
  ⟨by decide, by decide,
    claim_C5_amended 0 "2024-02-30T10:00:00Z" (by decide) (by decide)⟩

/-- C6: the claim says the rendered string always carries a non-empty
time-zone indicator, *including* at zero offset from UTC.  At zero offset
`timeZoneName: "longOffset"` yields the bare `"GMT"`, and
`.replace(/[^-+:\d]+/, "")` strips it to the empty string, so the output
is a bare local time with no `Z`, no `+`, and no offset digits (its two
`-` are the date separators of the always-present `yyyy-mm-dd` prefix);
at a nonzero offset such as UTC-8 the indicator does survive. -/
theorem claim_C6_zero_offset_drops_zone :
    localIso8601String 0 "2024-02-08T20:03:14Z" =
      .ok "2024-02-08T08:03:14" ∧
    zonePart 0 = "" ∧
    "2024-02-08T08:03:14".data.contains 'Z' = false ∧
    "2024-02-08T08:03:14".data.contains '+' = false ∧
    zonePart (-480) = "-08:00" :=
  ⟨rfl, rfl, by decide, by decide, rfl⟩

/-- C7 counterexample: the claim says the run of the pattern may contain
`'-'` and that a string whose run portion contains `'-'` is recognised as
a single match; but the pattern of src/script.js:59 has the class
`[:.T\d]` without the hyphen, so `2024-02-08-12Z` is not matched at all:
`test` is false and `split` returns the whole string as one literal
segment. -/
theorem claim_C7_counterexample :
    reTest "2024-02-08-12Z" = false ∧
    splitSegs "2024-02-08-12Z" = ["2024-02-08-12Z"] := by
  constructor
  · decide
  · decide

/-- C7 amended: the pattern of src/script.js:59 matches exactly the
strings of the shape four digits, `-`, two digits, `-`, two digits, then
a run of characters drawn from `{':', '.', 'T', digit}` — without `'-'` —
terminated by a literal `Z`; a string whose run portion contains `'-'`
(such as `2024-02-08-12Z`) is not recognised by it, although the variant
pattern in src/unnamed/part_000 (class `[-:.T\d]`) does recognise it. -/
theorem claim_C7_amended :
    (∀ s : String, matchWhole s = true ↔ IsoShape s) ∧
    reTest "2024-02-08-12Z" = false ∧
    reTestU "2024-02-08-12Z" = true :=
  ⟨matchWhole_iff_isoShape, by decide, by decide⟩

/-- C8: the pattern object built in src/script.js:59 has no flags, so per
ECMA-262 its `test` ignores and never updates `lastIndex`: after any
sequence of preceding `test` calls on arbitrary strings, testing `s`
gives the same result as testing `s` on the freshly constructed object —
no scanning-position state leaks between calls. -/
theorem claim_C8_test_stateless (prior : List String) (s : String) :
    (regexTest (runTests iso8601 prior) s).fst =
      (regexTest iso8601 s).fst := by
  rw [runTests_id]

/-- C9: every replacement node the pipeline emits has positive-length
visible text — in particular no zero-length plain text node is ever
spliced into the tree — and the empty input string produces zero
replacement nodes. -/
theorem claim_C9_no_empty_nodes (off : Int) (s : String) (ns : List DNode)
    (n : DNode) (h : processText off s = .ok ns) (hn : n ∈ ns) :
    0 < (textContent n).length ∧ processText off "" = .ok [] :=
  ⟨processText_ok_mem_pos h n hn, rfl⟩

theorem claim_C9_witness :
    processText 0 "2024-02-08T20:03:14Z" = .ok
      [DNode.element ["date", "localize-iso8601-string"]
        "2024-02-08T20:03:14Z" [DNode.text "2024-02-08T08:03:14"]] ∧
    (0 < (textContent (DNode.element ["date", "localize-iso8601-string"]
        "2024-02-08T20:03:14Z" [DNode.text "2024-02-08T08:03:14"])).length ∧
      processText 0 "" = .ok []) :=
  ⟨rfl, claim_C9_no_empty_nodes 0 "2024-02-08T20:03:14Z" _ _ rfl
    (List.Mem.head _)⟩

/-- C10: the zero-length filter keys on each node's visible
`textContent`, not only on literal text nodes: under any transformer that
returns the empty display string for every match, no Marker Node (and
hence no `title` attribute holding the original substring) is ever
inserted — every node that survives the filter is a plain text node. -/
theorem claim_C10_empty_render_drops_marker (tr : String → String)
    (s : String) (n : DNode) (h1 : ∀ m, reTest m = true → tr m = "")
    (h2 : n ∈ processTextWith tr s) : isMarker n = false := by
  unfold processTextWith at h2
  obtain ⟨hmem, hpos⟩ := List.mem_filter.mp h2
  obtain ⟨seg, hseg, hclass⟩ := List.mem_map.mp hmem
  by_cases hre : reTest seg
  · rw [if_pos hre] at hclass
    subst hclass
    have hpos' : 0 < (textContent (wrapIsoString seg tr)).length :=
      of_decide_eq_true hpos
    rw [textContent_wrapIsoString, h1 seg hre] at hpos'
    simp at hpos'
  · rw [if_neg hre] at hclass
    subst hclass
    rfl

theorem claim_C10_witness :
    reTest "2024-02-08T20:03:14Z" = true ∧
    processTextWith (fun _ => "") "a2024-02-08T20:03:14Z" =
      [DNode.text "a"] ∧
    isMarker (DNode.text "a") = false :=
  ⟨by decide, rfl,
    claim_C10_empty_render_drops_marker (fun _ => "")
      "a2024-02-08T20:03:14Z" (DNode.text "a") (fun _ _ => rfl)
      (List.Mem.head _)⟩
